import Mathlib

/-!
Verification of the wxBitmapBundle specification against the code in
include/wx/bmpbndl.h.  The header provides the facade class
wxBitmapBundle (with several inline factory functions), and the abstract
backend interface wxBitmapBundleImpl.  The concrete backend
implementations (fixed-set, vector/SVG source) are declared but their
bodies live outside the analysed fragment, so they are modelled from the
specification text, as indicated on each definition.
-/

/-- Pixel size, mirroring wxSize: a pair of machine integers. -/
structure wxSize where
  x : Int
  y : Int
deriving DecidableEq, Repr

/-- Modelled from the spec: the "use default" sentinel size accepted by
GetBitmap (the header, line 114, says: if size equals wxDefaultSize then
GetDefaultSize() is used instead); its concrete value is the invalid
size with both components negative, as in wx/gdicmn.h. -/
def wxDefaultSize : wxSize := ⟨-1, -1⟩

/-- Modelled from the spec: the invalid zero-area sentinel size returned
by GetDefaultSize on an empty bundle (spec section 7, QueryOnEmpty). -/
def wxInvalidSize : wxSize := ⟨0, 0⟩

/-- Raster bitmap, mirroring wxBitmap as an opaque raster handle: a
validity flag, a pixel size and opaque pixel content. -/
structure wxBitmap where
  ok : Bool
  size : wxSize
  pixels : List Nat
deriving DecidableEq, Repr

/-- The null (invalid) bitmap, wxNullBitmap. -/
def wxNullBitmap : wxBitmap := ⟨false, ⟨-1, -1⟩, []⟩

/-- Validity of a bitmap: a usable raster has positive pixel dimensions,
an invalid handle has none. -/
def wxBitmap.IsOk (b : wxBitmap) : Bool :=
  b.ok && decide (0 < b.size.x) && decide (0 < b.size.y)

/-- Modelled from the spec: the BitmapStorage collaborator's resampling
operation (spec section 6): rescale an existing bitmap to an exact
target size; the content stays derived from the source bitmap. -/
def rescaleToSize (b : wxBitmap) (sz : wxSize) : wxBitmap :=
  ⟨b.ok, sz, b.pixels⟩

/-- Image, mirroring wxImage: same shape as a bitmap for our purposes. -/
structure wxImage where
  ok : Bool
  size : wxSize
  pixels : List Nat
deriving DecidableEq, Repr

/-- Validity of an image, as for bitmaps. -/
def wxImage.IsOk (i : wxImage) : Bool :=
  i.ok && decide (0 < i.size.x) && decide (0 < i.size.y)

/-- Conversion wxBitmap(image): carries validity, size and content over. -/
def wxBitmap.ofImage (i : wxImage) : wxBitmap := ⟨i.ok, i.size, i.pixels⟩

/-- Icon, mirroring wxIcon. -/
structure wxIcon where
  ok : Bool
  size : wxSize
  pixels : List Nat
deriving DecidableEq, Repr

/-- Validity of an icon, as for bitmaps. -/
def wxIcon.IsOk (i : wxIcon) : Bool :=
  i.ok && decide (0 < i.size.x) && decide (0 < i.size.y)

/-- Conversion wxBitmap(icon): carries validity, size and content over. -/
def wxBitmap.ofIcon (i : wxIcon) : wxBitmap := ⟨i.ok, i.size, i.pixels⟩

/-- Modelled from the spec: the preferred-size computation shared by the
backends (spec sections 4.3 and 4.4): round the default size times the
scale, clamping each dimension to a minimum of 1 pixel.  The scale (a
double in the code) is modelled as a rational number. -/
def scaleSize (d : wxSize) (scale : ℚ) : wxSize :=
  ⟨max 1 (round ((d.x : ℚ) * scale)), max 1 (round ((d.y : ℚ) * scale))⟩

/-- Modelled from the spec: the fixed-set backend (spec sections 3 and
4.3, declared as a wxBitmapBundleImpl subclass outside the header): a
finite collection of candidate bitmaps, kept sorted ascending by width,
whose first (baseline) candidate provides the default size.  A
candidate's size is the pixel size of its bitmap. -/
structure wxBitmapBundleImplSet where
  bitmaps : List wxBitmap
deriving DecidableEq, Repr

/-- Default size of a fixed-set backend: the size of the baseline (first)
candidate; the backend is never constructed empty. -/
def wxBitmapBundleImplSet.GetDefaultSize (s : wxBitmapBundleImplSet) : wxSize :=
  match s.bitmaps with
  | [] => wxInvalidSize
  | c :: _ => c.size

/-- Among a list of candidates, pick one of minimal width (the first such
one when widths tie). -/
def pickMinWidth : List wxBitmap → Option wxBitmap
  | [] => none
  | c :: rest =>
    match pickMinWidth rest with
    | none => some c
    | some d => if d.size.x < c.size.x then some d else some c

/-- Among a list of candidates, pick one of maximal width (the first such
one when widths tie). -/
def pickMaxWidth : List wxBitmap → Option wxBitmap
  | [] => none
  | c :: rest =>
    match pickMaxWidth rest with
    | none => some c
    | some d => if c.size.x < d.size.x then some d else some c

/-- Modelled from the spec: the fixed-set selection algorithm (spec
section 4.3).  If a candidate of exactly the requested size exists it is
returned unmodified; otherwise the candidate of smallest width at least
the requested width is chosen, or, failing that, the candidate of
largest width; the chosen candidate is rescaled to the exact requested
size. -/
def wxBitmapBundleImplSet.GetBitmap (s : wxBitmapBundleImplSet) (sz : wxSize) : wxBitmap :=
  match s.bitmaps.find? (fun c => decide (c.size = sz)) with
  | some c => c
  | none =>
    match pickMinWidth (s.bitmaps.filter (fun c => decide (sz.x ≤ c.size.x))) with
    | some c => rescaleToSize c sz
    | none =>
      match pickMaxWidth s.bitmaps with
      | some c => rescaleToSize c sz
      | none => wxNullBitmap

/-- Modelled from the spec: the vector-source backend (spec sections 3
and 4.4, declared outside the header): an opaque parsed vector document,
a default size, a cache mapping sizes to rendered bitmaps, and an
instrumentation counter of rasterizer invocations. -/
structure wxBitmapBundleImplSVG where
  document : List Nat
  defaultSize : wxSize
  cache : List (wxSize × wxBitmap)
  rasterCount : Nat
deriving DecidableEq, Repr

/-- Modelled from the spec: the VectorRasterizer collaborator (spec
section 6): render the parsed document to a raster bitmap at an exact
pixel size. -/
def rasterize (document : List Nat) (sz : wxSize) : wxBitmap :=
  ⟨true, sz, document⟩

/-- Modelled from the spec: lazy rasterization with caching (spec
section 4.4): look the size up in the cache; on a hit return the cached
bitmap, on a miss invoke the rasterizer, record the result in the cache
and return it.  The state is threaded explicitly because the code
mutates the backend. -/
def wxBitmapBundleImplSVG.GetBitmap (v : wxBitmapBundleImplSVG) (sz : wxSize) :
    wxBitmap × wxBitmapBundleImplSVG :=
  match v.cache.find? (fun p => decide (p.1 = sz)) with
  | some p => (p.2, v)
  | none =>
    let b := rasterize v.document sz
    (b, ⟨v.document, v.defaultSize, (sz, b) :: v.cache, v.rasterCount + 1⟩)

/-- The backend interface wxBitmapBundleImpl, modelled as the closed set
of implementations the spec describes (spec section 9): the fixed-set
backend and the vector-source backend; the naming-convention backend
resolves to a fixed-set backend at construction time. -/
inductive wxBitmapBundleImpl where
  | fixedSet (s : wxBitmapBundleImplSet)
  | vector (v : wxBitmapBundleImplSVG)
deriving DecidableEq, Repr

/-- Backend default size, dispatching on the implementation. -/
def wxBitmapBundleImpl.GetDefaultSize : wxBitmapBundleImpl → wxSize
  | .fixedSet s => s.GetDefaultSize
  | .vector v => v.defaultSize

/-- Backend preferred size at a scale: both implementations round the
default size times the scale, clamped to at least one pixel per
dimension (spec sections 4.3 and 4.4). -/
def wxBitmapBundleImpl.GetPreferredSizeAtScale (impl : wxBitmapBundleImpl) (scale : ℚ) : wxSize :=
  scaleSize impl.GetDefaultSize scale

/-- Backend bitmap retrieval; non-const in the code because the vector
backend caches, so the possibly updated backend is returned as well. -/
def wxBitmapBundleImpl.GetBitmap : wxBitmapBundleImpl → wxSize → wxBitmap × wxBitmapBundleImpl
  | .fixedSet s, sz => (s.GetBitmap sz, .fixedSet s)
  | .vector v, sz =>
    let r := v.GetBitmap sz
    (r.1, .vector r.2)

/-- Well-formedness of a backend as established by construction: a
fixed-set backend is non-empty with every candidate of positive size, a
vector backend has a positive default size. -/
def wxBitmapBundleImpl.WF : wxBitmapBundleImpl → Prop
  | .fixedSet s => s.bitmaps ≠ [] ∧ ∀ b ∈ s.bitmaps, 0 < b.size.x ∧ 0 < b.size.y
  | .vector v => 0 < v.defaultSize.x ∧ 0 < v.defaultSize.y

/-- The facade wxBitmapBundle: a value type holding a shared reference
to a backend, or nothing (header, line 132: m_impl). -/
structure wxBitmapBundle where
  m_impl : Option wxBitmapBundleImpl
deriving DecidableEq, Repr

/-- Check if the bundle is non-empty (header, line 99: returns m_impl,
that is, whether the implementation pointer is non-null). -/
def wxBitmapBundle.IsOk (bnd : wxBitmapBundle) : Bool := bnd.m_impl.isSome

/-- Copy construction and assignment share the backend reference
(header, lines 56 and 57); in the value model this is the identity on
the stored optional backend. -/
def wxBitmapBundle.copy (bnd : wxBitmapBundle) : wxBitmapBundle := ⟨bnd.m_impl⟩

/-- Modelled from the spec: GetDefaultSize delegates to the backend and
returns the invalid zero-area sentinel on an empty bundle (spec
sections 4.1 and 7; declared at header line 103). -/
def wxBitmapBundle.GetDefaultSize (bnd : wxBitmapBundle) : wxSize :=
  match bnd.m_impl with
  | none => wxInvalidSize
  | some impl => impl.GetDefaultSize

/-- Modelled from the spec: GetBitmap substitutes the default size for
the "use default" sentinel and delegates to the backend (header lines
111 to 115, spec section 4.1); on an empty bundle it returns the null
bitmap (spec section 7).  The possibly updated bundle is returned too. -/
def wxBitmapBundle.GetBitmap (bnd : wxBitmapBundle) (size : wxSize) :
    wxBitmap × wxBitmapBundle :=
  match bnd.m_impl with
  | none => (wxNullBitmap, bnd)
  | some impl =>
    let sz := if size = wxDefaultSize then impl.GetDefaultSize else size
    let r := impl.GetBitmap sz
    (r.1, ⟨some r.2⟩)

/-- Insert one bitmap into an accumulated candidate list, replacing the
entry of equal size when present (so that the later write wins) and
appending otherwise. -/
def upsertBySize (acc : List wxBitmap) (b : wxBitmap) : List wxBitmap :=
  if acc.any (fun c => decide (c.size = b.size)) then
    acc.map (fun c => if c.size = b.size then b else c)
  else
    acc ++ [b]

/-- Deduplicate a bitmap list by size, last write wins. -/
def dedupBySize (l : List wxBitmap) : List wxBitmap :=
  l.foldl upsertBySize []

/-- Modelled from the spec: FromBitmaps (declared at header line 64;
spec section 4.1): filter out invalid entries, deduplicate by size with
the last write winning, sort ascending by width, and build a fixed-set
backend from the remainder; an empty remainder yields an empty bundle. -/
def wxBitmapBundle.FromBitmaps (bitmaps : List wxBitmap) : wxBitmapBundle :=
  let cands := (dedupBySize (bitmaps.filter (fun b => b.IsOk))).insertionSort
      (fun a b => a.size.x ≤ b.size.x)
  if cands.isEmpty then ⟨none⟩ else ⟨some (.fixedSet ⟨cands⟩)⟩

/-- The two-bitmap overload of FromBitmaps, translated from the inline
definition at header lines 147 to 157: push each valid argument into a
vector and call the vector overload. -/
def wxBitmapBundle.FromBitmaps2 (bitmap1 bitmap2 : wxBitmap) : wxBitmapBundle :=
  let bitmaps : List wxBitmap := []
  let bitmaps := if bitmap1.IsOk then bitmaps ++ [bitmap1] else bitmaps
  let bitmaps := if bitmap2.IsOk then bitmaps ++ [bitmap2] else bitmaps
  wxBitmapBundle.FromBitmaps bitmaps

/-- Modelled from the spec: the conversion constructor from a single
bitmap (declared at header line 43, called by the inline FromBitmap at
header lines 159 to 163): wrap one valid bitmap into a single-candidate
fixed-set backend; an invalid bitmap yields an empty bundle (spec
section 4.1). -/
def wxBitmapBundle.FromBitmap (bitmap : wxBitmap) : wxBitmapBundle :=
  if bitmap.IsOk then ⟨some (.fixedSet ⟨[bitmap]⟩)⟩ else ⟨none⟩

/-- Specification predicate for the fixed-set selection algorithm (spec
section 4.3), stated in the spec's words: on an exact size match the
matching candidate is returned unmodified; otherwise the chosen
candidate has the smallest width at least the requested width, or the
largest width when no candidate is wide enough, and the result is that
candidate rescaled; in every case the result has exactly the requested
pixel dimensions. -/
def FixedSetSelectionSpec (s : wxBitmapBundleImplSet) (sz : wxSize) : Prop :=
  ((∃ c ∈ s.bitmaps, c.size = sz) →
     ∃ c ∈ s.bitmaps, c.size = sz ∧ s.GetBitmap sz = c) ∧
  ((∀ c ∈ s.bitmaps, c.size ≠ sz) →
     ∃ c ∈ s.bitmaps,
       s.GetBitmap sz = rescaleToSize c sz ∧
       ((∃ d ∈ s.bitmaps, sz.x ≤ d.size.x) →
          sz.x ≤ c.size.x ∧ ∀ d ∈ s.bitmaps, sz.x ≤ d.size.x → c.size.x ≤ d.size.x) ∧
       ((∀ d ∈ s.bitmaps, d.size.x < sz.x) → ∀ d ∈ s.bitmaps, d.size.x ≤ c.size.x)) ∧
  (s.GetBitmap sz).size = sz

/-- Sample valid bitmap of width 32 used to exercise the theorems. -/
def sampleB32 : wxBitmap := ⟨true, ⟨32, 32⟩, [1]⟩

/-- Sample valid bitmap of width 64 used to exercise the theorems. -/
def sampleB64 : wxBitmap := ⟨true, ⟨64, 64⟩, [2]⟩

/-- Sample invalid bitmap used to exercise the theorems. -/
def sampleBad : wxBitmap := ⟨false, ⟨10, 10⟩, [9]⟩

/-- FromImage, translated from the inline definition at header lines 165
to 172: an invalid image yields an empty bundle, otherwise the image is
converted to a bitmap and FromBitmap is called. -/
def wxBitmapBundle.FromImage (image : wxImage) : wxBitmapBundle :=
  if !image.IsOk then ⟨none⟩
  else wxBitmapBundle.FromBitmap (wxBitmap.ofImage image)

/-- Modelled from the spec: the conversion constructor from an icon
(declared at header line 46): wrap one valid icon into a
single-candidate fixed-set backend; an invalid icon yields an empty
bundle (spec section 4.1). -/
def wxBitmapBundle.FromIcon (icon : wxIcon) : wxBitmapBundle :=
  if icon.IsOk then ⟨some (.fixedSet ⟨[wxBitmap.ofIcon icon]⟩)⟩ else ⟨none⟩

/-! Helper lemmas about the candidate-picking functions. -/

lemma pickMinWidth_eq_none {l : List wxBitmap} : pickMinWidth l = none ↔ l = [] := by
  cases l with
  | nil => simp [pickMinWidth]
  | cons c rest =>
    simp only [pickMinWidth]
    cases h : pickMinWidth rest with
    | none => simp
    | some d =>
      dsimp only
      split <;> simp

lemma pickMinWidth_spec {l : List wxBitmap} {c : wxBitmap} (h : pickMinWidth l = some c) :
    c ∈ l ∧ ∀ d ∈ l, c.size.x ≤ d.size.x := by
  induction l generalizing c with
  | nil => simp [pickMinWidth] at h
  | cons a rest ih =>
    simp only [pickMinWidth] at h
    cases hr : pickMinWidth rest with
    | none =>
      rw [hr] at h
      have : rest = [] := pickMinWidth_eq_none.mp hr
      subst this
      simp at h
      subst h
      simp
    | some d =>
      rw [hr] at h
      dsimp only at h
      obtain ⟨hdmem, hdle⟩ := ih hr
      by_cases hlt : d.size.x < a.size.x
      · rw [if_pos hlt] at h
        obtain rfl : d = c := by simpa using h
        refine ⟨List.mem_cons_of_mem _ hdmem, ?_⟩
        intro e he
        rcases List.mem_cons.mp he with rfl | he
        · exact le_of_lt hlt
        · exact hdle e he
      · rw [if_neg hlt] at h
        obtain rfl : a = c := by simpa using h
        refine ⟨List.mem_cons_self _ _, ?_⟩
        intro e he
        rcases List.mem_cons.mp he with rfl | he
        · exact le_refl _
        · exact le_trans (le_of_not_lt hlt) (hdle e he)

lemma pickMaxWidth_eq_none {l : List wxBitmap} : pickMaxWidth l = none ↔ l = [] := by
  cases l with
  | nil => simp [pickMaxWidth]
  | cons c rest =>
    simp only [pickMaxWidth]
    cases h : pickMaxWidth rest with
    | none => simp
    | some d =>
      dsimp only
      split <;> simp

lemma pickMaxWidth_spec {l : List wxBitmap} {c : wxBitmap} (h : pickMaxWidth l = some c) :
    c ∈ l ∧ ∀ d ∈ l, d.size.x ≤ c.size.x := by
  induction l generalizing c with
  | nil => simp [pickMaxWidth] at h
  | cons a rest ih =>
    simp only [pickMaxWidth] at h
    cases hr : pickMaxWidth rest with
    | none =>
      rw [hr] at h
      have : rest = [] := pickMaxWidth_eq_none.mp hr
      subst this
      simp at h
      subst h
      simp
    | some d =>
      rw [hr] at h
      dsimp only at h
      obtain ⟨hdmem, hdle⟩ := ih hr
      by_cases hlt : a.size.x < d.size.x
      · rw [if_pos hlt] at h
        obtain rfl : d = c := by simpa using h
        refine ⟨List.mem_cons_of_mem _ hdmem, ?_⟩
        intro e he
        rcases List.mem_cons.mp he with rfl | he
        · exact le_of_lt hlt
        · exact hdle e he
      · rw [if_neg hlt] at h
        obtain rfl : a = c := by simpa using h
        refine ⟨List.mem_cons_self _ _, ?_⟩
        intro e he
        rcases List.mem_cons.mp he with rfl | he
        · exact le_refl _
        · exact le_trans (hdle e he) (le_of_not_lt hlt)

/-- C1: for the fixed-set backend, GetBitmap follows the spec's
selection algorithm: an exact-size candidate is returned unmodified;
otherwise the candidate of smallest width at least the requested width
is chosen, or the largest candidate when none is wide enough, and the
returned bitmap has exactly the requested pixel dimensions. -/
theorem fixedSet_GetBitmap_follows_selection_spec (s : wxBitmapBundleImplSet) (sz : wxSize)
    (hne : s.bitmaps ≠ []) : FixedSetSelectionSpec s sz := by
  unfold FixedSetSelectionSpec wxBitmapBundleImplSet.GetBitmap
  cases hfind : s.bitmaps.find? (fun c => decide (c.size = sz)) with
  | some c =>
    have hc : c.size = sz := by simpa using List.find?_some hfind
    have hmem : c ∈ s.bitmaps := List.mem_of_find?_eq_some hfind
    refine ⟨fun _ => ⟨c, hmem, hc, rfl⟩, fun hno => absurd hc (hno c hmem), hc⟩
  | none =>
    have hnoexact : ∀ c ∈ s.bitmaps, ¬ c.size = sz := by
      intro c hc
      have := List.find?_eq_none.mp hfind c hc
      simpa using this
    refine ⟨fun ⟨c, hc, hcsz⟩ => absurd hcsz (hnoexact c hc), fun _ => ?_, ?_⟩
    · cases hmin : pickMinWidth (s.bitmaps.filter (fun c => decide (sz.x ≤ c.size.x))) with
      | some c =>
        obtain ⟨hcmem, hcle⟩ := pickMinWidth_spec hmin
        have hcmem' : c ∈ s.bitmaps ∧ sz.x ≤ c.size.x := by
          have := List.mem_filter.mp hcmem
          simpa using this
        refine ⟨c, hcmem'.1, rfl, fun _ => ⟨hcmem'.2, ?_⟩, fun hall => ?_⟩
        · intro d hd hdw
          exact hcle d (List.mem_filter.mpr ⟨hd, by simpa using hdw⟩)
        · exact absurd hcmem'.2 (not_le.mpr (hall c hcmem'.1))
      | none =>
        have hfe : s.bitmaps.filter (fun c => decide (sz.x ≤ c.size.x)) = [] :=
          pickMinWidth_eq_none.mp hmin
        have hnolarge : ∀ d ∈ s.bitmaps, d.size.x < sz.x := by
          intro d hd
          have := List.filter_eq_nil_iff.mp hfe d hd
          simpa using this
        cases hmax : pickMaxWidth s.bitmaps with
        | some c =>
          obtain ⟨hcmem, hcge⟩ := pickMaxWidth_spec hmax
          exact ⟨c, hcmem, rfl,
            fun ⟨d, hd, hdw⟩ => absurd hdw (not_le.mpr (hnolarge d hd)),
            fun _ => hcge⟩
        | none => exact absurd (pickMaxWidth_eq_none.mp hmax) hne
    · cases hmin : pickMinWidth (s.bitmaps.filter (fun c => decide (sz.x ≤ c.size.x))) with
      | some c => rfl
      | none =>
        cases hmax : pickMaxWidth s.bitmaps with
        | some c => rfl
        | none => exact absurd (pickMaxWidth_eq_none.mp hmax) hne

/-- Witness for C1 at the spec's example: candidates at widths 32 and
64, request 48 by 48; the 64-pixel candidate is selected and the result
is exactly 48 by 48. -/
theorem fixedSet_GetBitmap_follows_selection_spec_witness :
    (wxBitmapBundleImplSet.mk [sampleB32, sampleB64]).bitmaps ≠ [] ∧
    FixedSetSelectionSpec ⟨[sampleB32, sampleB64]⟩ ⟨48, 48⟩ ∧
    (wxBitmapBundleImplSet.mk [sampleB32, sampleB64]).GetBitmap ⟨48, 48⟩ =
      rescaleToSize sampleB64 ⟨48, 48⟩ :=
  ⟨by simp [sampleB32, sampleB64],
   fixedSet_GetBitmap_follows_selection_spec ⟨[sampleB32, sampleB64]⟩ ⟨48, 48⟩
     (by simp [sampleB32, sampleB64]),
   by decide⟩

/-- C2: for the vector-source backend, a second GetBitmap call with the
same size returns a content-identical bitmap from the cache, leaves the
backend state unchanged and does not invoke the rasterizer again (the
instrumented invocation counter stays constant). -/
theorem vector_GetBitmap_cache_idempotent (v : wxBitmapBundleImplSVG) (sz : wxSize) :
    ((v.GetBitmap sz).2.GetBitmap sz).1 = (v.GetBitmap sz).1 ∧
    ((v.GetBitmap sz).2.GetBitmap sz).2 = (v.GetBitmap sz).2 ∧
    ((v.GetBitmap sz).2.GetBitmap sz).2.rasterCount = (v.GetBitmap sz).2.rasterCount := by
  unfold wxBitmapBundleImplSVG.GetBitmap
  cases h : v.cache.find? (fun p => decide (p.1 = sz)) with
  | some p => simp [h]
  | none => simp [h]

/-- Helper: a well-formed backend has a positive default size. -/
lemma WF_defaultSize_pos {impl : wxBitmapBundleImpl} (hwf : impl.WF) :
    0 < impl.GetDefaultSize.x ∧ 0 < impl.GetDefaultSize.y := by
  cases impl with
  | fixedSet s =>
    obtain ⟨hne, hpos⟩ := hwf
    cases hb : s.bitmaps with
    | nil => exact absurd hb hne
    | cons c rest =>
      have := hpos c (by rw [hb]; exact List.mem_cons_self _ _)
      simpa [wxBitmapBundleImpl.GetDefaultSize, wxBitmapBundleImplSet.GetDefaultSize, hb]
        using this
  | vector v => exact hwf

/-- Helper: one clamped rounded dimension is monotone in the scale when
the dimension is nonnegative. -/
lemma scaled_dim_mono {d : Int} {s1 s2 : ℚ} (hd : 0 ≤ d) (h12 : s1 ≤ s2) :
    max 1 (round ((d : ℚ) * s1)) ≤ max 1 (round ((d : ℚ) * s2)) := by
  have hmul : (d : ℚ) * s1 ≤ (d : ℚ) * s2 :=
    mul_le_mul_of_nonneg_left h12 (by exact_mod_cast hd)
  have hround : round ((d : ℚ) * s1) ≤ round ((d : ℚ) * s2) := by
    rw [round_eq, round_eq]
    exact Int.floor_le_floor (add_le_add_right hmul _)
  exact max_le_max (le_refl 1) hround

/-- C3: for every backend implementation (well-formed, as every
factory-built backend is), GetPreferredSizeAtScale is monotonically
non-decreasing in the scale, componentwise, and always returns a valid
size of positive area. -/
theorem GetPreferredSizeAtScale_monotone_valid (impl : wxBitmapBundleImpl) (s1 s2 : ℚ)
    (hwf : impl.WF) (h1 : 0 < s1) (h12 : s1 ≤ s2) :
    (impl.GetPreferredSizeAtScale s1).x ≤ (impl.GetPreferredSizeAtScale s2).x ∧
    (impl.GetPreferredSizeAtScale s1).y ≤ (impl.GetPreferredSizeAtScale s2).y ∧
    (0 < (impl.GetPreferredSizeAtScale s1).x ∧ 0 < (impl.GetPreferredSizeAtScale s1).y) ∧
    (0 < (impl.GetPreferredSizeAtScale s2).x ∧ 0 < (impl.GetPreferredSizeAtScale s2).y) := by
  obtain ⟨hx, hy⟩ := WF_defaultSize_pos hwf
  unfold wxBitmapBundleImpl.GetPreferredSizeAtScale scaleSize
  refine ⟨scaled_dim_mono (le_of_lt hx) h12, scaled_dim_mono (le_of_lt hy) h12, ?_, ?_⟩ <;>
    exact ⟨lt_of_lt_of_le zero_lt_one (le_max_left _ _),
           lt_of_lt_of_le zero_lt_one (le_max_left _ _)⟩

/-- Witness for C3 at a concrete vector backend with default size 16 by
16 and scales 1 and 2. -/
theorem GetPreferredSizeAtScale_monotone_valid_witness :
    (wxBitmapBundleImpl.vector ⟨[], ⟨16, 16⟩, [], 0⟩).WF ∧ (0 : ℚ) < 1 ∧ (1 : ℚ) ≤ 2 ∧
    (((wxBitmapBundleImpl.vector ⟨[], ⟨16, 16⟩, [], 0⟩).GetPreferredSizeAtScale 1).x ≤
      ((wxBitmapBundleImpl.vector ⟨[], ⟨16, 16⟩, [], 0⟩).GetPreferredSizeAtScale 2).x) :=
  ⟨by constructor <;> decide, by decide, by decide,
   (GetPreferredSizeAtScale_monotone_valid (.vector ⟨[], ⟨16, 16⟩, [], 0⟩) 1 2
     (by constructor <;> decide) (by decide) (by decide)).1⟩

/-- C4: IsOk holds exactly when the bundle holds a backend, and the
invariant is stable under copy construction and assignment, which share
the backend reference. -/
theorem IsOk_iff_backend_present (bnd : wxBitmapBundle) :
    (bnd.IsOk = true ↔ bnd.m_impl ≠ none) ∧
    bnd.copy.IsOk = bnd.IsOk ∧
    bnd.copy.m_impl = bnd.m_impl := by
  refine ⟨?_, rfl, rfl⟩
  cases h : bnd.m_impl with
  | none => simp [wxBitmapBundle.IsOk, h]
  | some impl => simp [wxBitmapBundle.IsOk, h]

/-- C6: querying an empty bundle never fails hard: GetDefaultSize
returns the invalid zero-area sentinel size and GetBitmap returns the
invalid null bitmap, leaving the bundle unchanged. -/
theorem query_on_empty_returns_sentinels (bnd : wxBitmapBundle) (h : bnd.IsOk = false) :
    bnd.GetDefaultSize = wxInvalidSize ∧
    wxInvalidSize.x * wxInvalidSize.y = 0 ∧
    ∀ sz, (bnd.GetBitmap sz).1 = wxNullBitmap ∧
      wxNullBitmap.IsOk = false ∧ (bnd.GetBitmap sz).2 = bnd := by
  have hnone : bnd.m_impl = none := by
    cases hi : bnd.m_impl with
    | none => rfl
    | some impl => rw [wxBitmapBundle.IsOk, hi] at h; simp at h
  refine ⟨?_, rfl, fun sz => ⟨?_, rfl, ?_⟩⟩ <;>
    simp [wxBitmapBundle.GetDefaultSize, wxBitmapBundle.GetBitmap, hnone]

/-- Witness for C6 at the default-constructed empty bundle and a
concrete query size. -/
theorem query_on_empty_returns_sentinels_witness :
    (wxBitmapBundle.mk none).IsOk = false ∧
    (wxBitmapBundle.mk none).GetDefaultSize = wxInvalidSize ∧
    ((wxBitmapBundle.mk none).GetBitmap ⟨10, 10⟩).1 = wxNullBitmap :=
  ⟨by decide, (query_on_empty_returns_sentinels ⟨none⟩ (by decide)).1,
   ((query_on_empty_returns_sentinels ⟨none⟩ (by decide)).2.2 ⟨10, 10⟩).1⟩

/-- C7: wrapping a valid bitmap and querying at the bundle's default
size returns the original bitmap pixel-identically. -/
theorem fromBitmap_roundtrip_identity (b : wxBitmap) (h : b.IsOk = true) :
    ((wxBitmapBundle.FromBitmap b).GetBitmap
      (wxBitmapBundle.FromBitmap b).GetDefaultSize).1 = b := by
  unfold wxBitmapBundle.FromBitmap
  rw [if_pos h]
  simp only [wxBitmapBundle.GetDefaultSize, wxBitmapBundle.GetBitmap,
    wxBitmapBundleImpl.GetDefaultSize, wxBitmapBundleImpl.GetBitmap,
    wxBitmapBundleImplSet.GetDefaultSize]
  split <;>
    simp [wxBitmapBundleImplSet.GetBitmap, wxBitmapBundleImplSet.GetDefaultSize, List.find?]

/-- Witness for C7 at a concrete valid 32 by 32 bitmap. -/
theorem fromBitmap_roundtrip_identity_witness :
    sampleB32.IsOk = true ∧
    ((wxBitmapBundle.FromBitmap sampleB32).GetBitmap
      (wxBitmapBundle.FromBitmap sampleB32).GetDefaultSize).1 = sampleB32 :=
  ⟨by decide, fromBitmap_roundtrip_identity sampleB32 (by decide)⟩

/-- C8: on a non-empty bundle, querying GetBitmap with the "use default"
sentinel size is the same call as querying at the bundle's default
size. -/
theorem getBitmap_default_sentinel_substitution (bnd : wxBitmapBundle) (h : bnd.IsOk = true) :
    bnd.GetBitmap wxDefaultSize = bnd.GetBitmap bnd.GetDefaultSize := by
  obtain ⟨impl, hi⟩ := Option.isSome_iff_exists.mp h
  simp [wxBitmapBundle.GetBitmap, wxBitmapBundle.GetDefaultSize, hi, ite_self]

/-- Witness for C8 at a concrete single-candidate bundle. -/
theorem getBitmap_default_sentinel_substitution_witness :
    (wxBitmapBundle.FromBitmap sampleB32).IsOk = true ∧
    (wxBitmapBundle.FromBitmap sampleB32).GetBitmap wxDefaultSize =
      (wxBitmapBundle.FromBitmap sampleB32).GetBitmap
        (wxBitmapBundle.FromBitmap sampleB32).GetDefaultSize :=
  ⟨by decide, getBitmap_default_sentinel_substitution _ (by decide)⟩

/-- C9: the single-source factories FromBitmap, FromImage and FromIcon
produce an empty bundle from invalid input and a non-empty bundle with
exactly one candidate from valid input. -/
theorem single_source_factories_spec (b : wxBitmap) (img : wxImage) (ic : wxIcon) :
    (b.IsOk = false → (wxBitmapBundle.FromBitmap b).IsOk = false) ∧
    (b.IsOk = true →
      (wxBitmapBundle.FromBitmap b).m_impl = some (.fixedSet ⟨[b]⟩)) ∧
    (img.IsOk = false → (wxBitmapBundle.FromImage img).IsOk = false) ∧
    (img.IsOk = true →
      (wxBitmapBundle.FromImage img).m_impl = some (.fixedSet ⟨[wxBitmap.ofImage img]⟩)) ∧
    (ic.IsOk = false → (wxBitmapBundle.FromIcon ic).IsOk = false) ∧
    (ic.IsOk = true →
      (wxBitmapBundle.FromIcon ic).m_impl = some (.fixedSet ⟨[wxBitmap.ofIcon ic]⟩)) := by
  have himg : (wxBitmap.ofImage img).IsOk = img.IsOk := rfl
  refine ⟨fun h => ?_, fun h => ?_, fun h => ?_, fun h => ?_, fun h => ?_, fun h => ?_⟩ <;>
    simp [wxBitmapBundle.FromBitmap, wxBitmapBundle.FromImage, wxBitmapBundle.FromIcon,
      wxBitmapBundle.IsOk, himg, h]

/-- Witness for C9 at a concrete valid bitmap, an invalid image and a
valid icon. -/
theorem single_source_factories_spec_witness :
    sampleB32.IsOk = true ∧
    (wxBitmapBundle.FromBitmap sampleB32).m_impl =
      some (.fixedSet ⟨[sampleB32]⟩) ∧
    (wxImage.mk false ⟨7, 7⟩ []).IsOk = false ∧
    (wxBitmapBundle.FromImage ⟨false, ⟨7, 7⟩, []⟩).IsOk = false :=
  ⟨by decide,
   (single_source_factories_spec sampleB32 ⟨false, ⟨7, 7⟩, []⟩ ⟨true, ⟨8, 8⟩, []⟩).2.1
     (by decide),
   by decide,
   (single_source_factories_spec sampleB32 ⟨false, ⟨7, 7⟩, []⟩ ⟨true, ⟨8, 8⟩, []⟩).2.2.1
     (by decide)⟩

/-- C10: the two-bitmap overload of FromBitmaps equals the vector
overload applied to the list of exactly those arguments that are valid,
kept in order; one valid argument yields a single-candidate bundle and
two invalid arguments yield an empty bundle. -/
theorem fromBitmaps2_equals_filtered_vector (b1 b2 : wxBitmap) :
    wxBitmapBundle.FromBitmaps2 b1 b2 =
      wxBitmapBundle.FromBitmaps (List.filter (fun b => b.IsOk) [b1, b2]) ∧
    (b1.IsOk = false → b2.IsOk = true →
      (wxBitmapBundle.FromBitmaps2 b1 b2).m_impl = some (.fixedSet ⟨[b2]⟩)) ∧
    (b1.IsOk = true → b2.IsOk = false →
      (wxBitmapBundle.FromBitmaps2 b1 b2).m_impl = some (.fixedSet ⟨[b1]⟩)) ∧
    (b1.IsOk = false → b2.IsOk = false →
      (wxBitmapBundle.FromBitmaps2 b1 b2).IsOk = false) := by
  unfold wxBitmapBundle.FromBitmaps2
  refine ⟨?_, fun h1 h2 => ?_, fun h1 h2 => ?_, fun h1 h2 => ?_⟩ <;>
    cases hb1 : b1.IsOk <;> cases hb2 : b2.IsOk <;>
      simp_all [wxBitmapBundle.FromBitmaps, wxBitmapBundle.IsOk, dedupBySize, upsertBySize,
        List.insertionSort, List.orderedInsert]

/-- Witness for C10 at one invalid and one valid argument. -/
theorem fromBitmaps2_equals_filtered_vector_witness :
    sampleBad.IsOk = false ∧ sampleB64.IsOk = true ∧
    (wxBitmapBundle.FromBitmaps2 sampleBad sampleB64).m_impl =
      some (.fixedSet ⟨[sampleB64]⟩) :=
  ⟨by decide, by decide,
   (fromBitmaps2_equals_filtered_vector sampleBad sampleB64).2.1 (by decide) (by decide)⟩

/-! Helper lemmas about size-based deduplication. -/

lemma upsert_map_size (b a : wxBitmap) :
    (if a.size = b.size then b else a).size = a.size := by
  split
  · next hab => rw [hab]
  · rfl

lemma find_map_replace_hit (acc : List wxBitmap) (b : wxBitmap) :
    (acc.map (fun c => if c.size = b.size then b else c)).find?
        (fun c => decide (c.size = b.size)) =
      if acc.any (fun c => decide (c.size = b.size)) then some b else none := by
  induction acc with
  | nil => simp
  | cons a rest ih =>
    by_cases ha : a.size = b.size
    · simp [ha]
    · simp [ha, ih]

lemma find_map_replace_miss (acc : List wxBitmap) (b : wxBitmap) (z : wxSize)
    (hz : ¬ b.size = z) :
    (acc.map (fun c => if c.size = b.size then b else c)).find?
        (fun c => decide (c.size = z)) =
      acc.find? (fun c => decide (c.size = z)) := by
  induction acc with
  | nil => simp
  | cons a rest ih =>
    by_cases ha : a.size = b.size
    · have haz : ¬ a.size = z := by rw [ha]; exact hz
      simp [ha, hz, haz, ih]
    · by_cases haz : a.size = z
      · have hzb : ¬ z = b.size := fun h => hz h.symm
        simp [ha, haz, hzb]
      · simp [ha, haz, ih]

lemma find_upsertBySize (acc : List wxBitmap) (b : wxBitmap) (z : wxSize) :
    (upsertBySize acc b).find? (fun c => decide (c.size = z)) =
      if b.size = z then some b else acc.find? (fun c => decide (c.size = z)) := by
  unfold upsertBySize
  by_cases hbz : b.size = z
  · subst hbz
    by_cases hany : acc.any (fun c => decide (c.size = b.size)) = true
    · rw [if_pos hany, if_pos rfl, find_map_replace_hit, if_pos hany]
    · rw [if_neg hany, if_pos rfl, List.find?_append]
      have hany' : acc.any (fun c => decide (c.size = b.size)) = false := by
        simpa using hany
      have hnone : acc.find? (fun c => decide (c.size = b.size)) = none := by
        rw [List.find?_eq_none]
        intro x hx
        have := List.any_eq_false.mp hany' x hx
        simpa using this
      simp [hnone]
  · by_cases hany : acc.any (fun c => decide (c.size = b.size)) = true
    · rw [if_pos hany, if_neg hbz, find_map_replace_miss acc b z hbz]
    · rw [if_neg hany, if_neg hbz, List.find?_append]
      have : ([b].find? (fun c => decide (c.size = z))) = none := by simp [hbz]
      rw [this]
      cases acc.find? (fun c => decide (c.size = z)) <;> rfl

lemma foldl_upsert_find (l : List wxBitmap) (acc : List wxBitmap) (z : wxSize) :
    (l.foldl upsertBySize acc).find? (fun c => decide (c.size = z)) =
      match l.reverse.find? (fun c => decide (c.size = z)) with
      | some c => some c
      | none => acc.find? (fun c => decide (c.size = z)) := by
  induction l generalizing acc with
  | nil => simp
  | cons b rest ih =>
    have hrev : (b :: rest).reverse = rest.reverse ++ [b] := by simp
    rw [List.foldl_cons, ih (upsertBySize acc b), hrev, List.find?_append]
    cases hr : rest.reverse.find? (fun c => decide (c.size = z)) with
    | some c => rfl
    | none =>
      rw [find_upsertBySize]
      by_cases hbz : b.size = z
      · simp [hbz]
      · simp [hbz]

lemma mem_upsertBySize {acc : List wxBitmap} {b c : wxBitmap}
    (h : c ∈ upsertBySize acc b) : c ∈ acc ∨ c = b := by
  unfold upsertBySize at h
  split at h
  · obtain ⟨a, ha, hfa⟩ := List.mem_map.mp h
    by_cases hab : a.size = b.size
    · rw [if_pos hab] at hfa
      exact Or.inr hfa.symm
    · rw [if_neg hab] at hfa
      exact Or.inl (hfa ▸ ha)
  · rcases List.mem_append.mp h with hc | hc
    · exact Or.inl hc
    · exact Or.inr (by simpa using hc)

lemma mem_foldl_upsert {l : List wxBitmap} {acc : List wxBitmap} {c : wxBitmap}
    (h : c ∈ l.foldl upsertBySize acc) : c ∈ acc ∨ c ∈ l := by
  induction l generalizing acc with
  | nil => exact Or.inl h
  | cons b rest ih =>
    rw [List.foldl_cons] at h
    rcases ih h with hc | hc
    · rcases mem_upsertBySize hc with hc | hc
      · exact Or.inl hc
      · exact Or.inr (hc ▸ List.mem_cons_self _ _)
    · exact Or.inr (List.mem_cons_of_mem _ hc)

lemma pairwise_upsertBySize {acc : List wxBitmap} {b : wxBitmap}
    (h : acc.Pairwise (fun a c => a.size ≠ c.size)) :
    (upsertBySize acc b).Pairwise (fun a c => a.size ≠ c.size) := by
  unfold upsertBySize
  split
  · rw [List.pairwise_map]
    refine h.imp ?_
    intro a c hac
    rw [upsert_map_size, upsert_map_size]
    exact hac
  · next hany =>
    rw [List.pairwise_append]
    refine ⟨h, List.pairwise_singleton _ _, ?_⟩
    intro a ha c hc
    obtain rfl : c = b := by simpa using hc
    have := List.any_eq_false.mp (eq_false_of_ne_true hany) a ha
    simpa using this

lemma pairwise_foldl_upsert (l : List wxBitmap) (acc : List wxBitmap)
    (h : acc.Pairwise (fun a c => a.size ≠ c.size)) :
    (l.foldl upsertBySize acc).Pairwise (fun a c => a.size ≠ c.size) := by
  induction l generalizing acc with
  | nil => exact h
  | cons b rest ih => exact ih _ (pairwise_upsertBySize h)

lemma upsert_ne_nil (acc : List wxBitmap) (b : wxBitmap) : upsertBySize acc b ≠ [] := by
  unfold upsertBySize
  split
  · next hany =>
    intro hmap
    rw [List.map_eq_nil_iff] at hmap
    rw [hmap] at hany
    simp at hany
  · simp

lemma foldl_upsert_ne_nil (l : List wxBitmap) (acc : List wxBitmap) (h : acc ≠ []) :
    l.foldl upsertBySize acc ≠ [] := by
  induction l generalizing acc with
  | nil => exact h
  | cons b rest ih => exact ih _ (upsert_ne_nil acc b)

lemma dedupBySize_eq_nil {l : List wxBitmap} : dedupBySize l = [] ↔ l = [] := by
  cases l with
  | nil => simp [dedupBySize]
  | cons b rest =>
    simp only [dedupBySize, List.foldl_cons]
    constructor
    · intro h
      exact absurd h (foldl_upsert_ne_nil rest _ (upsert_ne_nil [] b))
    · intro h
      exact absurd h (by simp)

lemma find_self_of_pairwise {l : List wxBitmap} {c : wxBitmap}
    (hp : l.Pairwise (fun a d => a.size ≠ d.size)) (hc : c ∈ l) :
    l.find? (fun d => decide (d.size = c.size)) = some c := by
  induction l with
  | nil => exact absurd hc (List.not_mem_nil c)
  | cons a rest ih =>
    obtain ⟨ha, hrest⟩ := List.pairwise_cons.mp hp
    rcases List.mem_cons.mp hc with rfl | hc
    · simp
    · have hane : ¬ a.size = c.size := ha c hc
      have hdec : (decide (a.size = c.size)) = false := by simpa using hane
      simp only [List.find?_cons, hdec]
      exact ih hrest hc

/-- C5: FromBitmaps filters out invalid bitmaps and builds the bundle
from the remaining ones deduplicated by size with the last write
winning; when no valid bitmap remains, and in particular on the empty
list, the result is an empty bundle.  Every candidate of the built
backend is a valid input bitmap, is the last valid input of its size,
sizes are pairwise distinct, and every valid input size is
represented. -/
theorem fromBitmaps_filters_and_dedups (l : List wxBitmap) :
    (wxBitmapBundle.FromBitmaps []).IsOk = false ∧
    ((wxBitmapBundle.FromBitmaps l).IsOk = true ↔ ∃ b ∈ l, b.IsOk = true) ∧
    (∀ s, (wxBitmapBundle.FromBitmaps l).m_impl = some (.fixedSet s) →
      (∀ c ∈ s.bitmaps,
        c.IsOk = true ∧ c ∈ l ∧
        (l.filter (fun b => b.IsOk)).reverse.find?
          (fun b => decide (b.size = c.size)) = some c) ∧
      s.bitmaps.Pairwise (fun a b => a.size ≠ b.size) ∧
      (∀ b ∈ l, b.IsOk = true → ∃ c ∈ s.bitmaps, c.size = b.size)) := by
  have hsymm : Symmetric (fun a b : wxBitmap => a.size ≠ b.size) := fun _ _ h => Ne.symm h
  set valid := l.filter (fun b => b.IsOk) with hvalid
  set cands := (dedupBySize valid).insertionSort (fun a b => a.size.x ≤ b.size.x) with hcands
  have hperm : cands.Perm (dedupBySize valid) :=
    List.perm_insertionSort (fun a b => a.size.x ≤ b.size.x) (dedupBySize valid)
  have hFB : wxBitmapBundle.FromBitmaps l =
      if cands.isEmpty then ⟨none⟩ else ⟨some (.fixedSet ⟨cands⟩)⟩ := rfl
  have hnil_iff : cands = [] ↔ valid = [] := by
    constructor
    · intro hc
      rw [hc] at hperm
      exact dedupBySize_eq_nil.mp (hperm.symm.eq_nil)
    · intro hv
      rw [hcands, hv]
      rfl
  refine ⟨by decide, ?_, ?_⟩
  · rw [hFB]
    by_cases hemp : cands.isEmpty
    · rw [if_pos hemp]
      simp only [wxBitmapBundle.IsOk, Option.isSome_none, Bool.false_eq_true, false_iff]
      rintro ⟨b, hb, hok⟩
      have hbv : b ∈ valid := List.mem_filter.mpr ⟨hb, hok⟩
      rw [hnil_iff.mp (List.isEmpty_iff.mp hemp)] at hbv
      exact absurd hbv (List.not_mem_nil b)
    · rw [if_neg hemp]
      simp only [wxBitmapBundle.IsOk, Option.isSome_some, true_iff]
      have hvne : valid ≠ [] := by
        intro hv
        exact hemp (by rw [hnil_iff.mpr hv]; rfl)
      obtain ⟨b, hb⟩ := List.exists_mem_of_ne_nil valid hvne
      obtain ⟨hbl, hbok⟩ := List.mem_filter.mp hb
      exact ⟨b, hbl, hbok⟩
  · intro s hs
    rw [hFB] at hs
    by_cases hemp : cands.isEmpty
    · rw [if_pos hemp] at hs
      simp at hs
    · rw [if_neg hemp] at hs
      have hsb : s.bitmaps = cands := by
        cases s with
        | mk bs => simpa using hs.symm
      have hded : (dedupBySize valid).Pairwise (fun a b => a.size ≠ b.size) :=
        pairwise_foldl_upsert valid [] List.Pairwise.nil
      refine ⟨?_, ?_, ?_⟩
      · intro c hc
        rw [hsb] at hc
        have hcded : c ∈ dedupBySize valid := hperm.mem_iff.mp hc
        have hcv : c ∈ valid := by
          rcases mem_foldl_upsert hcded with h0 | h0
          · exact absurd h0 (List.not_mem_nil c)
          · exact h0
        obtain ⟨hcl, hcok⟩ := List.mem_filter.mp hcv
        refine ⟨hcok, hcl, ?_⟩
        have hfind : (dedupBySize valid).find? (fun d => decide (d.size = c.size)) = some c :=
          find_self_of_pairwise hded hcded
        simp only [dedupBySize] at hfind
        rw [foldl_upsert_find valid [] c.size] at hfind
        cases hr : valid.reverse.find? (fun d => decide (d.size = c.size)) with
        | none =>
          rw [hr] at hfind
          simp at hfind
        | some d =>
          rw [hr] at hfind
          simp at hfind
          rw [hfind]
      · rw [hsb]
        exact (hperm.pairwise_iff @hsymm).mpr hded
      · intro b hb hbok
        have hbv : b ∈ valid := List.mem_filter.mpr ⟨hb, hbok⟩
        cases hr : valid.reverse.find? (fun d => decide (d.size = b.size)) with
        | none =>
          have := List.find?_eq_none.mp hr b (List.mem_reverse.mpr hbv)
          simp at this
        | some c =>
          have hdedf : (dedupBySize valid).find? (fun d => decide (d.size = b.size)) = some c := by
            simp only [dedupBySize]
            rw [foldl_upsert_find valid [] b.size, hr]
          have hcded : c ∈ dedupBySize valid := List.mem_of_find?_eq_some hdedf
          have hcsz : c.size = b.size := by simpa using List.find?_some hdedf
          exact ⟨c, by rw [hsb]; exact hperm.mem_iff.mpr hcded, hcsz⟩

/-- Witness for C5 at a list holding one invalid bitmap and two valid
bitmaps of the same size, where the later write wins. -/
theorem fromBitmaps_filters_and_dedups_witness :
    (wxBitmapBundle.FromBitmaps []).IsOk = false ∧
    ((wxBitmapBundle.FromBitmaps [sampleBad, sampleB32, sampleB64]).IsOk = true) :=
  ⟨(fromBitmaps_filters_and_dedups []).1,
   (fromBitmaps_filters_and_dedups [sampleBad, sampleB32, sampleB64]).2.1.mpr
     ⟨sampleB32, by decide, by decide⟩⟩
